import Mathlib

/-!
Verification of the optimal-meeting-point solver
(`optimal_meeting_point.py`).

The program computes, for an MxN integer grid (0 = empty land, 1 = house,
any other value = obstacle), the minimum total travel distance from all
houses to a single empty cell reachable from every house, moving in
4-directional unit steps through non-obstacle cells; it returns -1 when no
valid meeting cell exists.

The shallow embedding below translates the three Python functions:

* `min_total_distance` (dispatcher, lines 17-46),
* `_fast_total_distance` (separable Manhattan scan, lines 49-72),
* `_bfs_total_distance` (per-house BFS accumulation, lines 75-128).

Python lists of lists of unbounded ints become `List (List Int)`;
coordinates become `Nat × Nat`.  The mutable BFS state
(`deque`, `visit_id`, `total_distances`, `reach_count`) is modelled
denotationally: a FIFO breadth-first search from a start cell discovers,
after `d` rounds, exactly the set of cells connected to the start by at
most `d` enterable unit steps (`reachN`), and the distance it records for
a cell is the first round at which the cell is discovered (`distTo`).
The per-cell counters of the source then read off as: `reach_count c`
equals the number of houses `h` with `(distTo grid h c).isSome`, and
`total_distances c` equals the sum of the recorded distances.
-/

set_option maxHeartbeats 1000000

namespace OMP

/-- A grid coordinate `(row, col)`, as in the Python tuples `(i, j)`. -/
abbrev Cell := Nat × Nat

/-- The value `grid[i][j]` of the Python grid.  Out-of-range reads (which
the Python code never performs on the control path) default to `0`. -/
def cellVal (grid : List (List Int)) (i j : Nat) : Int :=
  (grid.getD i []).getD j 0

/-- `m = len(grid)` (line 30 / 61 / 87 of the source). -/
def numRows (grid : List (List Int)) : Nat := grid.length

/-- `n = len(grid[0])` (line 30 / 61 / 87 of the source). -/
def numCols (grid : List (List Int)) : Nat := (grid.headD []).length

/-- The row-major list of coordinates scanned by the Python double loop
`for i in range(m): for j in range(n)`. -/
def cells (m n : Nat) : List Cell :=
  (List.range m).flatMap (fun i => (List.range n).map (fun j => (i, j)))

/-- `abs(house_row - i) + abs(house_col - j)` (lines 68-69): the Manhattan
distance between two coordinates. -/
def manhattan (a b : Cell) : Nat :=
  ((a.1 : Int) - (b.1 : Int)).natAbs + ((a.2 : Int) - (b.2 : Int)).natAbs

/-- The BFS enterability test `grid[new_row][new_col] in (0, 1)`
(line 113): empty or house, never an obstacle. -/
def passable (grid : List (List Int)) (c : Cell) : Bool :=
  cellVal grid c.1 c.2 == 0 || cellVal grid c.1 c.2 == 1

/-- The test `grid[i][j] == 0` selecting candidate empty cells
(lines 67 and 125). -/
def isEmptyCell (grid : List (List Int)) (c : Cell) : Bool :=
  cellVal grid c.1 c.2 == 0

/-- `b` is one orthogonal unit step away from `a`: the four direction
offsets `[(0, 1), (1, 0), (0, -1), (-1, 0)]` of line 96. -/
def adjacent (a b : Cell) : Bool :=
  (a.1 == b.1 && (a.2 + 1 == b.2 || b.2 + 1 == a.2)) ||
  (a.2 == b.2 && (a.1 + 1 == b.1 || b.1 + 1 == a.1))

/-- One round of BFS frontier expansion (lines 109-117): a cell belongs to
the expansion of the discovered set `r` iff it is in bounds and either was
already discovered, or is adjacent to a discovered cell and enterable
(`grid[new_row][new_col] in (0, 1)`).  Scanning the canonical row-major
cell list keeps the result duplicate-free, matching the visit-id guard of
line 114 which enqueues each cell at most once. -/
def grow (grid : List (List Int)) (r : List Cell) : List Cell :=
  (cells (numRows grid) (numCols grid)).filter
    (fun c => decide (c ∈ r) || ((r.any fun p => adjacent p c) && passable grid c))

/-- The set of cells the BFS of lines 98-117 has discovered (marked with
the current visit id) after `d` rounds of expansion from the start cell
`s`: round 0 is the seeding of line 99-100, each further round is one
frontier expansion. -/
def reachN (grid : List (List Int)) (s : Cell) : Nat → List Cell
  | 0 => [s]
  | d + 1 => grow grid (reachN grid s d)

/-- The distance the BFS records for cell `c` when started at `s`
(the `dist` popped with `c` at line 103): the first round at which `c` is
discovered, or `none` when `c` is never discovered.  A breadth-first
search discovers every reachable cell within `m*n` rounds, so the search
range `0..m*n` is exhaustive (proved below as `reach_bounded`). -/
def distTo (grid : List (List Int)) (s c : Cell) : Option Nat :=
  (List.range (numRows grid * numCols grid + 1)).find?
    (fun d => decide (c ∈ reachN grid s d))

/-- The running-minimum pattern shared by both algorithms
(`min_distance = float('inf')`, fold `min` over accumulated candidate
sums, then `return min_distance if min_distance != float('inf') else -1`,
lines 63-72 and 121-128): the minimum of a list of candidate totals, or
-1 when the list is empty. -/
def minOrNeg (l : List Nat) : Int :=
  match l.min? with
  | some t => (t : Int)
  | none => -1

/-- `_fast_total_distance` (lines 49-72): for every empty cell sum the
Manhattan distances to all houses; return the minimum such sum, or -1
when no empty cell exists. -/
def _fast_total_distance (grid : List (List Int)) (houses : List Cell) : Int :=
  minOrNeg (((cells (numRows grid) (numCols grid)).filter (isEmptyCell grid)).map
    (fun c => (houses.map (fun h => manhattan h c)).sum))

/-- `_bfs_total_distance` (lines 75-128): run one BFS per house; a cell is
a valid meeting point iff it is empty and its reachability count
`reach_count[i][j]` equals the number of houses, i.e. every house's BFS
discovered it (lines 123-125); its accumulated sum `total_distances[i][j]`
is the sum of the per-house recorded distances (line 106).  The result is
the minimum accumulated sum over valid cells, or -1 when none exists
(lines 121-128). -/
def _bfs_total_distance (grid : List (List Int)) (houses : List Cell) : Int :=
  minOrNeg (((cells (numRows grid) (numCols grid)).filter
      (fun c => isEmptyCell grid c && houses.all (fun h => (distTo grid h c).isSome))).map
    (fun c => (houses.map (fun h => (distTo grid h c).getD 0)).sum))

/-- The house list built by the dispatcher's scan (lines 32-36): the
row-major list of coordinates whose grid value is 1. -/
def housesOf (grid : List (List Int)) : List Cell :=
  (cells (numRows grid) (numCols grid)).filter (fun c => cellVal grid c.1 c.2 == 1)

/-- `has_obstacles` (line 41): some cell's value is neither 0 nor 1. -/
def has_obstacles (grid : List (List Int)) : Bool :=
  (cells (numRows grid) (numCols grid)).any
    (fun c => !(cellVal grid c.1 c.2 == 0 || cellVal grid c.1 c.2 == 1))

/-- `min_total_distance` (lines 17-46): -1 on an empty grid or zero-width
first row (`if not grid or not grid[0]`, line 27); -1 when there are no
houses (line 38); otherwise dispatch on the obstacle flag (lines 41-46). -/
def min_total_distance (grid : List (List Int)) : Int :=
  if grid.isEmpty || (grid.headD []).isEmpty then -1
  else if (housesOf grid).isEmpty then -1
  else if !has_obstacles grid then _fast_total_distance grid (housesOf grid)
  else _bfs_total_distance grid (housesOf grid)

/-- The grid with cell `(i, j)` replaced by value `v` (used to state the
obstacle-monotonicity claim). -/
def setCell (grid : List (List Int)) (i j : Nat) (v : Int) : List (List Int) :=
  grid.set i ((grid.getD i []).set j v)

/-- The grid with every value other than 0 and 1 replaced by the canonical
obstacle value 2 (used to state the closed-classification claim). -/
def normalizeGrid (grid : List (List Int)) : List (List Int) :=
  grid.map (fun row => row.map (fun v => if v = 0 ∨ v = 1 then v else 2))

/-- Every row of the grid has the length of the first row. -/
def Rectangular (grid : List (List Int)) : Prop :=
  ∀ row ∈ grid, row.length = numCols grid

instance decidableRectangular (grid : List (List Int)) : Decidable (Rectangular grid) := by
  unfold Rectangular
  infer_instance

/-- Specification-side classification of a cell as `Empty`: an in-bounds
coordinate whose grid value is 0. -/
def EmptyAt (grid : List (List Int)) (c : Cell) : Prop :=
  c.1 < numRows grid ∧ c.2 < numCols grid ∧ cellVal grid c.1 c.2 = 0

/-- Specification-side notion of one legal move, from the spec's movement
model: a step goes to an in-bounds, 4-directionally adjacent cell that is
not an obstacle. -/
def StepOk (grid : List (List Int)) (a b : Cell) : Prop :=
  b.1 < numRows grid ∧ b.2 < numCols grid ∧ adjacent a b = true ∧ passable grid b = true

/-- Specification-side reachability with an explicit edge count: `c` can
be reached from `s` in exactly `d` 4-directional unit steps, each step
entering a non-obstacle in-bounds cell. -/
inductive ReachesIn (grid : List (List Int)) (s : Cell) : Cell → Nat → Prop
  | refl : ReachesIn grid s s 0
  | step {b c : Cell} {d : Nat} :
      ReachesIn grid s b d → StepOk grid b c → ReachesIn grid s c (d + 1)

/-- Specification-side reachability: some number of steps works. -/
def Reachable (grid : List (List Int)) (s c : Cell) : Prop :=
  ∃ d, ReachesIn grid s c d

/-- Specification-side shortest-path edge count from `s` to `c`. -/
noncomputable def shortestDist (grid : List (List Int)) (s c : Cell) : Nat :=
  sInf {d | ReachesIn grid s c d}

/-- Specification-side valid meeting point: an in-bounds empty cell
reachable from every house. -/
def ValidMeeting (grid : List (List Int)) (houses : List Cell) (c : Cell) : Prop :=
  c.1 < numRows grid ∧ c.2 < numCols grid ∧ cellVal grid c.1 c.2 = 0 ∧
    ∀ h ∈ houses, Reachable grid h c

/-- Specification-side total cost of a meeting cell: the sum over all
houses of the shortest-path edge count to the cell. -/
noncomputable def specTotal (grid : List (List Int)) (houses : List Cell) (c : Cell) : Nat :=
  (houses.map (fun h => shortestDist grid h c)).sum

open Classical in
/-- Specification-side result of the obstacle-aware computation: the
minimum of `specTotal` over all valid meeting cells, or -1 when no valid
meeting cell exists. -/
noncomputable def specResult (grid : List (List Int)) (houses : List Cell) : Int :=
  if _h : ∃ c, ValidMeeting grid houses c then
    ((sInf (Set.image (fun c => specTotal grid houses c)
      {c | ValidMeeting grid houses c}) : Nat) : Int)
  else -1

/-! ### Basic facts about the cell list -/

theorem mem_cells {m n : Nat} {c : Cell} : c ∈ cells m n ↔ c.1 < m ∧ c.2 < n := by
  obtain ⟨i, j⟩ := c
  simp only [cells, List.mem_flatMap, List.mem_map, List.mem_range, Prod.mk.injEq]
  constructor
  · rintro ⟨a, ha, b, hb, rfl, rfl⟩
    exact ⟨ha, hb⟩
  · rintro ⟨hi, hj⟩
    exact ⟨i, hi, j, hj, rfl, rfl⟩

theorem length_cells (m n : Nat) : (cells m n).length = m * n := by
  simp only [cells, List.length_flatMap]
  rw [show (List.length ∘ fun i => List.map (fun j => (i, j)) (List.range n)) =
      fun _ : Nat => n by funext i; simp]
  simp [List.map_const', List.sum_replicate, Nat.mul_comm]

theorem mem_grow {grid : List (List Int)} {r : List Cell} {x : Cell} :
    x ∈ grow grid r ↔
      x.1 < numRows grid ∧ x.2 < numCols grid ∧
        (x ∈ r ∨ ((∃ p ∈ r, adjacent p x = true) ∧ passable grid x = true)) := by
  simp only [grow, List.mem_filter, mem_cells, Bool.or_eq_true, Bool.and_eq_true,
    decide_eq_true_eq, List.any_eq_true]
  tauto

/-! ### Monotonicity of the discovered set -/

theorem reach_subset_cells {grid : List (List Int)} {s : Cell}
    (hs : s.1 < numRows grid ∧ s.2 < numCols grid) :
    ∀ d, ∀ x ∈ reachN grid s d, x.1 < numRows grid ∧ x.2 < numCols grid := by
  intro d
  induction d with
  | zero =>
    intro x hx
    simp only [reachN, List.mem_singleton] at hx
    exact hx ▸ hs
  | succ d _ =>
    intro x hx
    exact ⟨(mem_grow.1 hx).1, (mem_grow.1 hx).2.1⟩

theorem grow_mono {grid : List (List Int)} {r₁ r₂ : List Cell}
    (h : ∀ y ∈ r₁, y ∈ r₂) : ∀ x ∈ grow grid r₁, x ∈ grow grid r₂ := by
  intro x hx
  rcases mem_grow.1 hx with ⟨h1, h2, h3⟩
  refine mem_grow.2 ⟨h1, h2, ?_⟩
  rcases h3 with hmem | ⟨⟨p, hp, hadj⟩, hpass⟩
  · exact Or.inl (h x hmem)
  · exact Or.inr ⟨⟨p, h p hp, hadj⟩, hpass⟩

theorem reach_mono_succ {grid : List (List Int)} {s : Cell}
    (hs : s.1 < numRows grid ∧ s.2 < numCols grid) :
    ∀ d, ∀ x ∈ reachN grid s d, x ∈ reachN grid s (d + 1) := by
  intro d
  induction d with
  | zero =>
    intro x hx
    simp only [reachN, List.mem_singleton] at hx
    subst hx
    exact mem_grow.2 ⟨hs.1, hs.2, Or.inl (List.mem_singleton.2 rfl)⟩
  | succ d ih =>
    intro x hx
    exact grow_mono ih x hx

theorem reach_mono {grid : List (List Int)} {s : Cell}
    (hs : s.1 < numRows grid ∧ s.2 < numCols grid) {d e : Nat} (hde : d ≤ e) :
    ∀ x ∈ reachN grid s d, x ∈ reachN grid s e := by
  induction e with
  | zero =>
    intro x hx
    exact Nat.le_zero.1 hde ▸ hx
  | succ e ih =>
    rcases Nat.lt_or_ge d (e + 1) with h | h
    · intro x hx
      exact reach_mono_succ hs e x (ih (Nat.lt_succ_iff.1 h) x hx)
    · intro x hx
      have : d = e + 1 := Nat.le_antisymm hde h
      exact this ▸ hx

/-! ### The discovered set matches step-by-step reachability -/

theorem reach_to_spec {grid : List (List Int)} {s : Cell} :
    ∀ d, ∀ x ∈ reachN grid s d, ∃ k, k ≤ d ∧ ReachesIn grid s x k := by
  intro d
  induction d with
  | zero =>
    intro x hx
    simp only [reachN, List.mem_singleton] at hx
    exact ⟨0, Nat.le_refl 0, hx ▸ ReachesIn.refl⟩
  | succ d ih =>
    intro x hx
    rcases mem_grow.1 hx with ⟨h1, h2, hmem | ⟨⟨p, hp, hadj⟩, hpass⟩⟩
    · rcases ih x hmem with ⟨k, hk, hre⟩
      exact ⟨k, Nat.le_succ_of_le hk, hre⟩
    · rcases ih p hp with ⟨k, hk, hre⟩
      exact ⟨k + 1, Nat.succ_le_succ hk, hre.step ⟨h1, h2, hadj, hpass⟩⟩

theorem spec_to_reach {grid : List (List Int)} {s : Cell} {x : Cell} {d : Nat}
    (h : ReachesIn grid s x d) : x ∈ reachN grid s d := by
  induction h with
  | refl => exact List.mem_singleton.2 rfl
  | step _ hstep ih =>
    rename_i b c d' _
    exact mem_grow.2 ⟨hstep.1, hstep.2.1, Or.inr ⟨⟨b, ih, hstep.2.2.1⟩, hstep.2.2.2⟩⟩

/-! ### Stabilization: BFS discovers every reachable cell within m*n rounds -/

theorem reach_succ_sublist {grid : List (List Int)} {s : Cell}
    (hs : s.1 < numRows grid ∧ s.2 < numCols grid) (d : Nat) :
    List.Sublist (reachN grid s (d + 1)) (reachN grid s (d + 2)) := by
  show List.Sublist (grow grid (reachN grid s d)) (grow grid (reachN grid s (d + 1)))
  unfold grow
  apply List.monotone_filter_right
  intro a ha
  simp only [Bool.or_eq_true, Bool.and_eq_true, decide_eq_true_eq, List.any_eq_true] at ha ⊢
  rcases ha with hmem | ⟨⟨p, hp, hadj⟩, hpass⟩
  · exact Or.inl (reach_mono_succ hs d a hmem)
  · exact Or.inr ⟨⟨p, reach_mono_succ hs d p hp, hadj⟩, hpass⟩

theorem reach_sublist_cells {grid : List (List Int)} {s : Cell} (d : Nat) :
    List.Sublist (reachN grid s (d + 1)) (cells (numRows grid) (numCols grid)) :=
  List.filter_sublist _

theorem stab_pigeonhole (f : Nat → Nat) (B : Nat) (hmono : ∀ d, f d ≤ f (d + 1))
    (hb : ∀ d, f d ≤ B) (h0 : 1 ≤ f 0) : ∃ d, d + 1 ≤ B ∧ f (d + 1) = f d := by
  by_contra hcon
  push_neg at hcon
  have key : ∀ k, k ≤ B → k + 1 ≤ f k := by
    intro k
    induction k with
    | zero => exact fun _ => h0
    | succ k ih =>
      intro hk
      have h1 := ih (Nat.le_of_succ_le hk)
      have h2 := hmono k
      have h3 := hcon k hk
      omega
  have h4 := key B (Nat.le_refl B)
  have h5 := hb B
  omega

theorem reach_stab {grid : List (List Int)} {s : Cell}
    (hs : s.1 < numRows grid ∧ s.2 < numCols grid) :
    ∃ d, d + 1 ≤ numRows grid * numCols grid ∧
      ∀ k, d + 1 ≤ k → reachN grid s k = reachN grid s (d + 1) := by
  obtain ⟨d, hd, hlen⟩ := stab_pigeonhole (fun d => (reachN grid s (d + 1)).length)
      (numRows grid * numCols grid)
      (fun d => (reach_succ_sublist hs d).length_le)
      (fun d => le_trans (reach_sublist_cells d).length_le (le_of_eq (length_cells _ _)))
      (by
        have hmem : s ∈ reachN grid s 1 := reach_mono_succ hs 0 s (List.mem_singleton.2 rfl)
        exact List.length_pos.2 (List.ne_nil_of_mem hmem))
  have heq : reachN grid s (d + 1) = reachN grid s (d + 2) :=
    (reach_succ_sublist hs d).eq_of_length hlen.symm
  refine ⟨d, hd, ?_⟩
  intro k hk
  induction k with
  | zero => omega
  | succ k ih =>
    rcases Nat.lt_or_ge (d + 1) (k + 1) with h | h
    · have hk' : d + 1 ≤ k := by omega
      rw [show reachN grid s (k + 1) = grow grid (reachN grid s k) from rfl, ih hk']
      exact heq.symm
    · have hkd : k + 1 = d + 1 := by omega
      rw [hkd]

theorem reach_bounded {grid : List (List Int)} {s : Cell}
    (hs : s.1 < numRows grid ∧ s.2 < numCols grid) {x : Cell} {k : Nat}
    (h : x ∈ reachN grid s k) :
    ∃ j, j ≤ numRows grid * numCols grid ∧ x ∈ reachN grid s j := by
  obtain ⟨d, hd, hstab⟩ := reach_stab hs
  rcases le_or_lt k (d + 1) with hk | hk
  · exact ⟨d + 1, hd, reach_mono hs hk x h⟩
  · exact ⟨d + 1, hd, (hstab k (Nat.le_of_lt hk)) ▸ h⟩

/-! ### The first-discovery round is the shortest-path distance -/

theorem find?_range_eq_some {p : Nat → Bool} {N k : Nat} :
    (List.range N).find? p = some k ↔
      k < N ∧ p k = true ∧ ∀ j, j < k → p j = false := by
  induction N generalizing k with
  | zero => simp
  | succ n ih =>
    rw [List.range_succ, List.find?_append]
    cases hfind : (List.range n).find? p with
    | some a =>
      rcases ih.1 hfind with ⟨ha1, ha2, ha3⟩
      simp only [Option.or_some]
      constructor
      · intro h
        injection h with h
        subst h
        exact ⟨Nat.lt_succ_of_lt ha1, ha2, ha3⟩
      · rintro ⟨hk1, hk2, hk3⟩
        have hak : a = k := by
          rcases Nat.lt_trichotomy a k with h | h | h
          · rw [hk3 a h] at ha2
            exact absurd ha2 (by simp)
          · exact h
          · rw [ha3 k h] at hk2
            exact absurd hk2 (by simp)
        rw [hak]
    | none =>
      have hnone := List.find?_eq_none.1 hfind
      simp only [Option.none_or]
      constructor
      · intro h
        rcases List.find?_cons_eq_some.1 h with ⟨hpn, rfl⟩ | ⟨_, hfalse⟩
        · refine ⟨Nat.lt_succ_self _, hpn, ?_⟩
          intro j hj
          have hj' := hnone j (List.mem_range.2 hj)
          simpa using hj'
        · simp at hfalse
      · rintro ⟨hk1, hk2, hk3⟩
        have hkn : k = n := by
          rcases Nat.lt_or_ge k n with h | h
          · have hk' := hnone k (List.mem_range.2 h)
            simp [hk2] at hk'
          · omega
        subst hkn
        exact List.find?_cons_of_pos _ hk2

theorem distTo_eq_some_iff {grid : List (List Int)} {s : Cell}
    (hs : s.1 < numRows grid ∧ s.2 < numCols grid) {c : Cell} {k : Nat} :
    distTo grid s c = some k ↔
      c ∈ reachN grid s k ∧ ∀ j, j < k → c ∉ reachN grid s j := by
  unfold distTo
  rw [find?_range_eq_some]
  constructor
  · rintro ⟨_, h2, h3⟩
    refine ⟨of_decide_eq_true h2, ?_⟩
    intro j hj hmem
    have hf := h3 j hj
    rw [decide_eq_false_iff_not] at hf
    exact hf hmem
  · rintro ⟨h1, h2⟩
    obtain ⟨j, hj, hjm⟩ := reach_bounded hs h1
    have hk_le : k ≤ j := by
      by_contra hcon
      exact h2 j (by omega) hjm
    refine ⟨by omega, decide_eq_true h1, ?_⟩
    intro j' hj'
    exact decide_eq_false (h2 j' hj')

theorem distTo_isSome_iff {grid : List (List Int)} {s : Cell}
    (hs : s.1 < numRows grid ∧ s.2 < numCols grid) {c : Cell} :
    (distTo grid s c).isSome = true ↔ Reachable grid s c := by
  unfold distTo
  rw [List.find?_isSome]
  constructor
  · rintro ⟨d, _, hd⟩
    obtain ⟨k, _, hre⟩ := reach_to_spec d c (of_decide_eq_true hd)
    exact ⟨k, hre⟩
  · rintro ⟨d, hre⟩
    obtain ⟨j, hj, hjm⟩ := reach_bounded hs (spec_to_reach hre)
    exact ⟨j, List.mem_range.2 (by omega), decide_eq_true hjm⟩

theorem distTo_shortest {grid : List (List Int)} {s : Cell}
    (hs : s.1 < numRows grid ∧ s.2 < numCols grid) {c : Cell} {k : Nat}
    (h : distTo grid s c = some k) :
    ReachesIn grid s c k ∧ (∀ j, ReachesIn grid s c j → k ≤ j) ∧
      shortestDist grid s c = k := by
  obtain ⟨h1, h2⟩ := (distTo_eq_some_iff hs).1 h
  have hmin : ∀ j, ReachesIn grid s c j → k ≤ j := by
    intro j hj
    by_contra hcon
    exact h2 j (by omega) (spec_to_reach hj)
  have hre : ReachesIn grid s c k := by
    obtain ⟨k', hk', hre⟩ := reach_to_spec k c h1
    have hle : k ≤ k' := hmin k' hre
    have hkk : k' = k := by omega
    exact hkk ▸ hre
  refine ⟨hre, hmin, ?_⟩
  unfold shortestDist
  apply le_antisymm
  · exact Nat.sInf_le hre
  · exact hmin _ (Nat.sInf_mem (⟨k, hre⟩ : Set.Nonempty {d | ReachesIn grid s c d}))

/-! ### The minimum-or-sentinel pattern -/

theorem nat_min?_eq_some_iff {xs : List Nat} {a : Nat} :
    xs.min? = some a ↔ a ∈ xs ∧ ∀ b ∈ xs, a ≤ b := by
  rw [List.min?_eq_some_iff (fun a => Nat.le_refl a) (fun a b => by omega)
    (fun a b c => Nat.le_min)]

theorem minOrNeg_nil : minOrNeg [] = -1 := rfl

theorem minOrNeg_of_ne_nil {l : List Nat} (hne : l ≠ []) :
    ∃ t : Nat, minOrNeg l = (t : Int) ∧ t ∈ l ∧ ∀ b ∈ l, t ≤ b := by
  cases hmin : l.min? with
  | none => exact absurd (List.min?_eq_none_iff.1 hmin) hne
  | some t =>
    obtain ⟨hmem, hle⟩ := nat_min?_eq_some_iff.1 hmin
    exact ⟨t, by simp [minOrNeg, hmin], hmem, hle⟩

theorem minOrNeg_eq_neg_iff {l : List Nat} : minOrNeg l = -1 ↔ l = [] := by
  constructor
  · intro h
    by_contra hne
    obtain ⟨t, ht, _, _⟩ := minOrNeg_of_ne_nil hne
    rw [ht] at h
    omega
  · intro h
    rw [h]
    rfl

/-! ### The BFS algorithm computes the specified minimum -/

theorem mem_validList_iff {grid : List (List Int)} {houses : List Cell}
    (hh : ∀ h ∈ houses, h.1 < numRows grid ∧ h.2 < numCols grid) {c : Cell} :
    c ∈ (cells (numRows grid) (numCols grid)).filter
        (fun c => isEmptyCell grid c && houses.all (fun h => (distTo grid h c).isSome))
      ↔ ValidMeeting grid houses c := by
  rw [List.mem_filter, mem_cells]
  simp only [Bool.and_eq_true, List.all_eq_true, isEmptyCell, beq_iff_eq, ValidMeeting]
  constructor
  · rintro ⟨⟨hb1, hb2⟩, hv, hall⟩
    exact ⟨hb1, hb2, hv, fun h hmem => (distTo_isSome_iff (hh h hmem)).1 (hall h hmem)⟩
  · rintro ⟨hb1, hb2, hv, hall⟩
    exact ⟨⟨hb1, hb2⟩, hv, fun h hmem => (distTo_isSome_iff (hh h hmem)).2 (hall h hmem)⟩

theorem total_eq_specTotal {grid : List (List Int)} {houses : List Cell} {c : Cell}
    (hh : ∀ h ∈ houses, h.1 < numRows grid ∧ h.2 < numCols grid)
    (hval : ∀ h ∈ houses, Reachable grid h c) :
    (houses.map (fun h => (distTo grid h c).getD 0)).sum = specTotal grid houses c := by
  unfold specTotal
  congr 1
  apply List.map_congr_left
  intro h hmem
  obtain ⟨k, hk⟩ := Option.isSome_iff_exists.1 ((distTo_isSome_iff (hh h hmem)).2 (hval h hmem))
  rw [hk, (distTo_shortest (hh h hmem) hk).2.2]
  rfl

theorem bfs_eq_spec (grid : List (List Int)) (houses : List Cell)
    (hh : ∀ h ∈ houses, h.1 < numRows grid ∧ h.2 < numCols grid) :
    _bfs_total_distance grid houses = specResult grid houses := by
  unfold _bfs_total_distance
  by_cases hex : ∃ c, ValidMeeting grid houses c
  · obtain ⟨c₀, hc₀⟩ := hex
    have hc₀mem := (mem_validList_iff hh).2 hc₀
    have hne : ((cells (numRows grid) (numCols grid)).filter
        (fun c => isEmptyCell grid c && houses.all (fun h => (distTo grid h c).isSome))).map
        (fun c => (houses.map (fun h => (distTo grid h c).getD 0)).sum) ≠ [] := by
      simp only [ne_eq, List.map_eq_nil_iff]
      exact List.ne_nil_of_mem hc₀mem
    obtain ⟨t, ht, htmem, htle⟩ := minOrNeg_of_ne_nil hne
    rw [ht, specResult, dif_pos ⟨c₀, hc₀⟩]
    congr 1
    obtain ⟨c, hcmem, hct⟩ := List.mem_map.1 htmem
    have hcval := (mem_validList_iff hh).1 hcmem
    have hval_spec : specTotal grid houses c = t := by
      rw [← total_eq_specTotal hh hcval.2.2.2, hct]
    apply le_antisymm
    · have hnonempty : (Set.image (fun c => specTotal grid houses c)
          {c | ValidMeeting grid houses c}).Nonempty := ⟨_, ⟨c, hcval, hval_spec⟩⟩
      obtain ⟨c', hc'val, hc'eq⟩ := Nat.sInf_mem hnonempty
      have hc'mem := (mem_validList_iff hh).2 hc'val
      have hspec' : (houses.map (fun h => (distTo grid h c' ).getD 0)).sum =
          specTotal grid houses c' := total_eq_specTotal hh hc'val.2.2.2
      calc t ≤ (houses.map (fun h => (distTo grid h c' ).getD 0)).sum :=
              htle _ (List.mem_map.2 ⟨c', hc'mem, rfl⟩)
        _ = specTotal grid houses c' := hspec'
        _ = sInf _ := hc'eq
    · exact Nat.sInf_le ⟨c, hcval, hval_spec⟩
  · have hnil : (cells (numRows grid) (numCols grid)).filter
        (fun c => isEmptyCell grid c && houses.all (fun h => (distTo grid h c).isSome)) = [] := by
      rw [List.filter_eq_nil_iff]
      intro c hc hpred
      exact hex ⟨c, (mem_validList_iff hh).1 (List.mem_filter.2 ⟨hc, hpred⟩)⟩
    rw [hnil, specResult, dif_neg hex]
    rfl

/-! ### The separable Manhattan scan -/

theorem mem_emptyList_iff {grid : List (List Int)} {c : Cell} :
    c ∈ (cells (numRows grid) (numCols grid)).filter (isEmptyCell grid) ↔ EmptyAt grid c := by
  rw [List.mem_filter, mem_cells]
  simp [isEmptyCell, EmptyAt, and_assoc]

theorem fast_spec (grid : List (List Int)) (houses : List Cell) :
    ((¬ ∃ c, EmptyAt grid c) → _fast_total_distance grid houses = -1) ∧
    (∀ c, EmptyAt grid c →
      ∃ c₀, EmptyAt grid c₀ ∧
        _fast_total_distance grid houses = ((houses.map (fun h => manhattan h c₀)).sum : Int) ∧
        ∀ c', EmptyAt grid c' →
          (houses.map (fun h => manhattan h c₀)).sum ≤
            (houses.map (fun h => manhattan h c' )).sum) := by
  constructor
  · intro hno
    have hnil : (cells (numRows grid) (numCols grid)).filter (isEmptyCell grid) = [] := by
      rw [List.filter_eq_nil_iff]
      intro c hc hpred
      exact hno ⟨c, mem_emptyList_iff.1 (List.mem_filter.2 ⟨hc, hpred⟩)⟩
    unfold _fast_total_distance
    rw [hnil]
    rfl
  · intro c hc
    have hne : ((cells (numRows grid) (numCols grid)).filter (isEmptyCell grid)).map
        (fun c => (houses.map (fun h => manhattan h c)).sum) ≠ [] := by
      simp only [ne_eq, List.map_eq_nil_iff]
      exact List.ne_nil_of_mem (mem_emptyList_iff.2 hc)
    obtain ⟨t, ht, htmem, htle⟩ := minOrNeg_of_ne_nil hne
    obtain ⟨c₀, hc₀mem, hc₀t⟩ := List.mem_map.1 htmem
    refine ⟨c₀, mem_emptyList_iff.1 hc₀mem, ?_, ?_⟩
    · rw [show _fast_total_distance grid houses = minOrNeg _ from rfl, ht, hc₀t]
    · intro c' hc'
      rw [hc₀t]
      exact htle _ (List.mem_map.2 ⟨c', mem_emptyList_iff.2 hc', rfl⟩)

/-! ### Manhattan distance and BFS on obstacle-free grids -/

theorem manhattan_eq_zero_iff {a b : Cell} : manhattan a b = 0 ↔ a = b := by
  obtain ⟨a1, a2⟩ := a
  obtain ⟨b1, b2⟩ := b
  unfold manhattan
  simp only [Prod.mk.injEq]
  omega

theorem adjacent_manhattan {a b : Cell} (h : adjacent a b = true) : manhattan a b = 1 := by
  obtain ⟨a1, a2⟩ := a
  obtain ⟨b1, b2⟩ := b
  simp only [adjacent, Bool.or_eq_true, Bool.and_eq_true, beq_iff_eq] at h
  unfold manhattan
  omega

theorem manhattan_triangle (a b c : Cell) :
    manhattan a c ≤ manhattan a b + manhattan b c := by
  unfold manhattan
  omega

theorem reach_manhattan_le {grid : List (List Int)} {s : Cell} :
    ∀ d, ∀ x ∈ reachN grid s d, manhattan s x ≤ d := by
  intro d
  induction d with
  | zero =>
    intro x hx
    simp only [reachN, List.mem_singleton] at hx
    simp [hx, manhattan_eq_zero_iff.2 rfl]
  | succ d ih =>
    intro x hx
    rcases mem_grow.1 hx with ⟨_, _, hmem | ⟨⟨p, hp, hadj⟩, _⟩⟩
    · exact Nat.le_succ_of_le (ih x hmem)
    · calc manhattan s x ≤ manhattan s p + manhattan p x := manhattan_triangle s p x
        _ = manhattan s p + 1 := by rw [adjacent_manhattan hadj]
        _ ≤ d + 1 := by have := ih p hp; omega

theorem exists_closer {m n : Nat} {s c : Cell} (hs1 : s.1 < m) (hs2 : s.2 < n)
    (hc1 : c.1 < m) (hc2 : c.2 < n) {k : Nat} (h : manhattan s c = k + 1) :
    ∃ p : Cell, p.1 < m ∧ p.2 < n ∧ adjacent p c = true ∧ manhattan s p = k := by
  obtain ⟨si, sj⟩ := s
  obtain ⟨i, j⟩ := c
  simp only at hs1 hs2 hc1 hc2
  rcases Nat.lt_trichotomy i si with hlt | heq | hgt
  · refine ⟨(i + 1, j), by omega, hc2, ?_, ?_⟩
    · simp [adjacent]
    · unfold manhattan at h ⊢
      simp only at h ⊢
      omega
  · rcases Nat.lt_trichotomy j sj with hjlt | hjeq | hjgt
    · refine ⟨(i, j + 1), hc1, by omega, ?_, ?_⟩
      · simp [adjacent]
      · unfold manhattan at h ⊢
        simp only at h ⊢
        omega
    · exfalso
      unfold manhattan at h
      simp only at h
      omega
    · obtain ⟨jp, rfl⟩ : ∃ jp, j = jp + 1 := ⟨j - 1, by omega⟩
      refine ⟨(i, jp), hc1, by omega, ?_, ?_⟩
      · simp [adjacent]
      · unfold manhattan at h ⊢
        simp only at h ⊢
        omega
  · obtain ⟨ip, rfl⟩ : ∃ ip, i = ip + 1 := ⟨i - 1, by omega⟩
    refine ⟨(ip, j), by omega, hc2, ?_, ?_⟩
    · simp [adjacent]
    · unfold manhattan at h ⊢
      simp only at h ⊢
      omega

theorem passable_of_free {grid : List (List Int)}
    (hfree : ∀ c : Cell, c.1 < numRows grid → c.2 < numCols grid →
      cellVal grid c.1 c.2 = 0 ∨ cellVal grid c.1 c.2 = 1)
    {c : Cell} (h1 : c.1 < numRows grid) (h2 : c.2 < numCols grid) :
    passable grid c = true := by
  rcases hfree c h1 h2 with h | h <;> simp [passable, h]

theorem reach_free {grid : List (List Int)}
    (hfree : ∀ c : Cell, c.1 < numRows grid → c.2 < numCols grid →
      cellVal grid c.1 c.2 = 0 ∨ cellVal grid c.1 c.2 = 1)
    {s : Cell} (hs : s.1 < numRows grid ∧ s.2 < numCols grid) :
    ∀ d (c : Cell), c.1 < numRows grid → c.2 < numCols grid →
      manhattan s c ≤ d → c ∈ reachN grid s d := by
  intro d
  induction d with
  | zero =>
    intro c _ _ hm
    have : c = s := (manhattan_eq_zero_iff.1 (Nat.le_zero.1 hm)).symm
    simp [reachN, this]
  | succ d ih =>
    intro c hc1 hc2 hm
    rcases Nat.lt_or_ge (manhattan s c) (d + 1) with hlt | hge
    · exact mem_grow.2 ⟨hc1, hc2, Or.inl (ih c hc1 hc2 (Nat.lt_succ_iff.1 hlt))⟩
    · have hmeq : manhattan s c = d + 1 := Nat.le_antisymm hm hge
      obtain ⟨p, hp1, hp2, hadj, hpm⟩ := exists_closer hs.1 hs.2 hc1 hc2 hmeq
      exact mem_grow.2 ⟨hc1, hc2,
        Or.inr ⟨⟨p, ih p hp1 hp2 (Nat.le_of_eq hpm), hadj⟩, passable_of_free hfree hc1 hc2⟩⟩

theorem distTo_free {grid : List (List Int)}
    (hfree : ∀ c : Cell, c.1 < numRows grid → c.2 < numCols grid →
      cellVal grid c.1 c.2 = 0 ∨ cellVal grid c.1 c.2 = 1)
    {s c : Cell} (hs : s.1 < numRows grid ∧ s.2 < numCols grid)
    (hc1 : c.1 < numRows grid) (hc2 : c.2 < numCols grid) :
    distTo grid s c = some (manhattan s c) := by
  rw [distTo_eq_some_iff hs]
  refine ⟨reach_free hfree hs _ c hc1 hc2 (Nat.le_refl _), ?_⟩
  intro j hj hmem
  have := reach_manhattan_le j c hmem
  omega

theorem fast_eq_bfs_free (grid : List (List Int)) (houses : List Cell)
    (hfree : ∀ c : Cell, c.1 < numRows grid → c.2 < numCols grid →
      cellVal grid c.1 c.2 = 0 ∨ cellVal grid c.1 c.2 = 1)
    (hh : ∀ h ∈ houses, h.1 < numRows grid ∧ h.2 < numCols grid) :
    _fast_total_distance grid houses = _bfs_total_distance grid houses := by
  unfold _fast_total_distance _bfs_total_distance
  have hfilter : (cells (numRows grid) (numCols grid)).filter (isEmptyCell grid) =
      (cells (numRows grid) (numCols grid)).filter
        (fun c => isEmptyCell grid c && houses.all (fun h => (distTo grid h c).isSome)) := by
    apply List.filter_congr
    intro c hc
    have hb := mem_cells.1 hc
    have hall : houses.all (fun h => (distTo grid h c).isSome) = true := by
      rw [List.all_eq_true]
      intro h hmem
      rw [distTo_free hfree (hh h hmem) hb.1 hb.2]
      rfl
    rw [hall, Bool.and_true]
  rw [hfilter]
  apply congrArg
  apply List.map_congr_left
  intro c hcmem
  have hb := mem_cells.1 (List.mem_filter.1 hcmem).1
  apply congrArg
  apply List.map_congr_left
  intro h hmem
  rw [distTo_free hfree (hh h hmem) hb.1 hb.2]
  rfl

/-! ### Obstacle normalization: only the three-way classification matters -/

theorem numRows_normalize (grid : List (List Int)) :
    numRows (normalizeGrid grid) = numRows grid := by
  simp [numRows, normalizeGrid]

theorem numCols_normalize (grid : List (List Int)) :
    numCols (normalizeGrid grid) = numCols grid := by
  cases grid with
  | nil => rfl
  | cons row rest => simp [numCols, normalizeGrid]

theorem cellVal_normalize (grid : List (List Int)) (i j : Nat) :
    cellVal (normalizeGrid grid) i j =
      if cellVal grid i j = 0 ∨ cellVal grid i j = 1 then cellVal grid i j else 2 := by
  unfold cellVal normalizeGrid
  simp only [List.getD_eq_getElem?_getD, List.getElem?_map]
  cases hrow : grid[i]? with
  | none => simp
  | some row =>
    simp only [Option.map_some', Option.getD_some]
    rw [List.getElem?_map]
    cases hj : row[j]? with
    | none => simp
    | some v => simp

theorem passable_normalize (grid : List (List Int)) (c : Cell) :
    passable (normalizeGrid grid) c = passable grid c := by
  unfold passable
  rw [cellVal_normalize]
  by_cases h0 : cellVal grid c.1 c.2 = 0
  · simp [h0]
  · by_cases h1 : cellVal grid c.1 c.2 = 1
    · simp [h1]
    · simp [h0, h1]

theorem isEmptyCell_normalize (grid : List (List Int)) (c : Cell) :
    isEmptyCell (normalizeGrid grid) c = isEmptyCell grid c := by
  unfold isEmptyCell
  rw [cellVal_normalize]
  by_cases h0 : cellVal grid c.1 c.2 = 0
  · simp [h0]
  · by_cases h1 : cellVal grid c.1 c.2 = 1
    · simp [h1]
    · simp [h0, h1]

theorem grow_normalize (grid : List (List Int)) (r : List Cell) :
    grow (normalizeGrid grid) r = grow grid r := by
  unfold grow
  rw [numRows_normalize, numCols_normalize]
  apply List.filter_congr
  intro c _
  rw [passable_normalize]

theorem reachN_normalize (grid : List (List Int)) (s : Cell) :
    ∀ d, reachN (normalizeGrid grid) s d = reachN grid s d := by
  intro d
  induction d with
  | zero => rfl
  | succ d ih =>
    show grow (normalizeGrid grid) (reachN (normalizeGrid grid) s d) = _
    rw [ih, grow_normalize]
    rfl

theorem distTo_normalize (grid : List (List Int)) (s c : Cell) :
    distTo (normalizeGrid grid) s c = distTo grid s c := by
  unfold distTo
  rw [numRows_normalize, numCols_normalize]
  have hfun : (fun d => decide (c ∈ reachN (normalizeGrid grid) s d)) =
      (fun d => decide (c ∈ reachN grid s d)) := by
    funext d
    rw [reachN_normalize]
  rw [hfun]

theorem fast_normalize (grid : List (List Int)) (houses : List Cell) :
    _fast_total_distance (normalizeGrid grid) houses = _fast_total_distance grid houses := by
  unfold _fast_total_distance
  rw [numRows_normalize, numCols_normalize]
  apply congrArg
  apply congrArg
  apply List.filter_congr
  intro c _
  rw [isEmptyCell_normalize]

theorem bfs_normalize (grid : List (List Int)) (houses : List Cell) :
    _bfs_total_distance (normalizeGrid grid) houses = _bfs_total_distance grid houses := by
  unfold _bfs_total_distance
  rw [numRows_normalize, numCols_normalize]
  apply congrArg
  have hfilter : (cells (numRows grid) (numCols grid)).filter
      (fun c => isEmptyCell (normalizeGrid grid) c &&
        houses.all (fun h => (distTo (normalizeGrid grid) h c).isSome)) =
      (cells (numRows grid) (numCols grid)).filter
      (fun c => isEmptyCell grid c && houses.all (fun h => (distTo grid h c).isSome)) := by
    apply List.filter_congr
    intro c _
    rw [isEmptyCell_normalize]
    have hall : (fun h => (distTo (normalizeGrid grid) h c).isSome) =
        (fun h => (distTo grid h c).isSome) := by
      funext h
      rw [distTo_normalize]
    rw [hall]
  rw [hfilter]
  apply List.map_congr_left
  intro c _
  apply congrArg
  apply List.map_congr_left
  intro h _
  rw [distTo_normalize]

theorem housesOf_normalize (grid : List (List Int)) :
    housesOf (normalizeGrid grid) = housesOf grid := by
  unfold housesOf
  rw [numRows_normalize, numCols_normalize]
  apply List.filter_congr
  intro c _
  rw [cellVal_normalize]
  by_cases h0 : cellVal grid c.1 c.2 = 0
  · simp [h0]
  · by_cases h1 : cellVal grid c.1 c.2 = 1
    · simp [h1]
    · simp [h0, h1]

theorem has_obstacles_normalize (grid : List (List Int)) :
    has_obstacles (normalizeGrid grid) = has_obstacles grid := by
  unfold has_obstacles
  rw [numRows_normalize, numCols_normalize]
  apply congrArg
  funext c
  rw [cellVal_normalize]
  by_cases h0 : cellVal grid c.1 c.2 = 0
  · simp [h0]
  · by_cases h1 : cellVal grid c.1 c.2 = 1
    · simp [h1]
    · simp [h0, h1]

theorem isEmpty_normalize (grid : List (List Int)) :
    (normalizeGrid grid).isEmpty = grid.isEmpty := by
  cases grid <;> rfl

theorem headD_isEmpty_normalize (grid : List (List Int)) :
    ((normalizeGrid grid).headD []).isEmpty = (grid.headD []).isEmpty := by
  cases grid with
  | nil => rfl
  | cons row rest =>
    show (row.map _).isEmpty = row.isEmpty
    cases row <;> rfl

theorem min_total_distance_normalize (grid : List (List Int)) :
    min_total_distance (normalizeGrid grid) = min_total_distance grid := by
  unfold min_total_distance
  rw [isEmpty_normalize, headD_isEmpty_normalize, housesOf_normalize,
    has_obstacles_normalize, fast_normalize, bfs_normalize]

/-! ### Dispatcher characterizations -/

theorem housesOf_eq_nil_iff {grid : List (List Int)} :
    housesOf grid = [] ↔
      ∀ c : Cell, c.1 < numRows grid → c.2 < numCols grid → cellVal grid c.1 c.2 ≠ 1 := by
  unfold housesOf
  rw [List.filter_eq_nil_iff]
  constructor
  · intro h c h1 h2 hval
    have hmem := h c (mem_cells.2 ⟨h1, h2⟩)
    simp [hval] at hmem
  · intro h c hc
    have hb := mem_cells.1 hc
    simp only [beq_iff_eq]
    exact h c hb.1 hb.2

theorem has_obstacles_eq_true_iff {grid : List (List Int)} :
    has_obstacles grid = true ↔
      ∃ c : Cell, c.1 < numRows grid ∧ c.2 < numCols grid ∧
        cellVal grid c.1 c.2 ≠ 0 ∧ cellVal grid c.1 c.2 ≠ 1 := by
  unfold has_obstacles
  rw [List.any_eq_true]
  constructor
  · rintro ⟨c, hc, hpred⟩
    have hb := mem_cells.1 hc
    simp only [Bool.not_eq_true', Bool.or_eq_false_iff, beq_eq_false_iff_ne, ne_eq] at hpred
    exact ⟨c, hb.1, hb.2, hpred.1, hpred.2⟩
  · rintro ⟨c, h1, h2, h3, h4⟩
    refine ⟨c, mem_cells.2 ⟨h1, h2⟩, ?_⟩
    simp [h3, h4]

theorem mem_housesOf_iff {grid : List (List Int)} {c : Cell} :
    c ∈ housesOf grid ↔
      c.1 < numRows grid ∧ c.2 < numCols grid ∧ cellVal grid c.1 c.2 = 1 := by
  unfold housesOf
  rw [List.mem_filter, mem_cells]
  simp [and_assoc]

/-! ### Lower bound: every house contributes at least one step -/

theorem length_le_sum_of_one_le {l : List Cell} {f : Cell → Nat}
    (h : ∀ x ∈ l, 1 ≤ f x) : l.length ≤ (l.map f).sum := by
  induction l with
  | nil => simp
  | cons a l ih =>
    simp only [List.length_cons, List.map_cons, List.sum_cons]
    have h1 := h a (List.mem_cons_self a l)
    have h2 := ih (fun x hx => h x (List.mem_cons_of_mem a hx))
    omega

theorem distTo_pos_of_ne {grid : List (List Int)} {s c : Cell} {k : Nat}
    (hd : distTo grid s c = some k) (hne : c ≠ s) : 1 ≤ k := by
  rcases Nat.eq_zero_or_pos k with hk | hk
  · subst hk
    have hp := List.find?_some hd
    rw [decide_eq_true_eq] at hp
    simp only [reachN, List.mem_singleton] at hp
    exact absurd hp hne
  · exact hk

theorem fast_lower_bound (grid : List (List Int)) (houses : List Cell)
    (hh : ∀ h ∈ houses, cellVal grid h.1 h.2 = 1)
    (hfast : _fast_total_distance grid houses ≠ -1) :
    (houses.length : Int) ≤ _fast_total_distance grid houses := by
  unfold _fast_total_distance at hfast ⊢
  have hnil : ((cells (numRows grid) (numCols grid)).filter (isEmptyCell grid)).map
      (fun c => (houses.map (fun h => manhattan h c)).sum) ≠ [] :=
    fun hl => hfast (by rw [hl]; rfl)
  obtain ⟨t, ht, tmem, _⟩ := minOrNeg_of_ne_nil hnil
  rw [ht]
  obtain ⟨c, hcmem, hct⟩ := List.mem_map.1 tmem
  have hcempty : cellVal grid c.1 c.2 = 0 := (mem_emptyList_iff.1 hcmem).2.2
  have hbound : houses.length ≤ t := by
    rw [← hct]
    apply length_le_sum_of_one_le
    intro h hmem
    by_contra hcon
    have h0 : manhattan h c = 0 := by omega
    have heq := manhattan_eq_zero_iff.1 h0
    rw [← heq] at hcempty
    rw [hh h hmem] at hcempty
    exact one_ne_zero hcempty
  exact_mod_cast hbound

theorem bfs_lower_bound (grid : List (List Int)) (houses : List Cell)
    (hh : ∀ h ∈ houses, cellVal grid h.1 h.2 = 1)
    (hbfs : _bfs_total_distance grid houses ≠ -1) :
    (houses.length : Int) ≤ _bfs_total_distance grid houses := by
  unfold _bfs_total_distance at hbfs ⊢
  have hnil : ((cells (numRows grid) (numCols grid)).filter
      (fun c => isEmptyCell grid c && houses.all (fun h => (distTo grid h c).isSome))).map
      (fun c => (houses.map (fun h => (distTo grid h c).getD 0)).sum) ≠ [] :=
    fun hl => hbfs (by rw [hl]; rfl)
  obtain ⟨t, ht, tmem, _⟩ := minOrNeg_of_ne_nil hnil
  rw [ht]
  obtain ⟨c, hcmem, hct⟩ := List.mem_map.1 tmem
  have hfilter := List.mem_filter.1 hcmem
  have hpred := Bool.and_eq_true_iff.1 hfilter.2
  have hcempty : cellVal grid c.1 c.2 = 0 := by
    have hE := hpred.1
    simpa [isEmptyCell] using hE
  have hall := List.all_eq_true.1 hpred.2
  have hbound : houses.length ≤ t := by
    rw [← hct]
    apply length_le_sum_of_one_le
    intro h hmem
    obtain ⟨k, hk⟩ := Option.isSome_iff_exists.1 (hall h hmem)
    rw [hk]
    have hcneh : c ≠ h := by
      intro heq
      rw [heq] at hcempty
      rw [hh h hmem] at hcempty
      exact one_ne_zero hcempty
    simpa using distTo_pos_of_ne hk hcneh
  exact_mod_cast hbound

theorem result_lower_bound (grid : List (List Int))
    (hne : min_total_distance grid ≠ -1) :
    ((housesOf grid).length : Int) ≤ min_total_distance grid ∧
      0 < min_total_distance grid := by
  have hhouse1 : ∀ h ∈ housesOf grid, cellVal grid h.1 h.2 = 1 :=
    fun h hm => (mem_housesOf_iff.1 hm).2.2
  unfold min_total_distance at hne ⊢
  split_ifs at hne ⊢ with h1 h2 h3
  · exact absurd rfl hne
  · exact absurd rfl hne
  · have hlb := fast_lower_bound grid (housesOf grid) hhouse1 hne
    have hlen : 1 ≤ (housesOf grid).length := by
      have hnn : housesOf grid ≠ [] := by
        intro hl
        exact h2 (by simp [hl])
      exact List.length_pos.2 hnn
    refine ⟨hlb, ?_⟩
    have h1' : (1 : Int) ≤ ((housesOf grid).length : Int) := by exact_mod_cast hlen
    omega
  · have hlb := bfs_lower_bound grid (housesOf grid) hhouse1 hne
    have hlen : 1 ≤ (housesOf grid).length := by
      have hnn : housesOf grid ≠ [] := by
        intro hl
        exact h2 (by simp [hl])
      exact List.length_pos.2 hnn
    refine ⟨hlb, ?_⟩
    have h1' : (1 : Int) ≤ ((housesOf grid).length : Int) := by exact_mod_cast hlen
    omega

/-! ### Adding an obstacle to an obstacle-free grid -/

theorem numRows_setCell (grid : List (List Int)) (i j : Nat) (v : Int) :
    numRows (setCell grid i j v) = numRows grid := by
  simp [numRows, setCell]

theorem numCols_setCell (grid : List (List Int)) (i j : Nat) (v : Int) :
    numCols (setCell grid i j v) = numCols grid := by
  unfold numCols setCell
  cases grid with
  | nil => rfl
  | cons row rest =>
    cases i with
    | zero =>
      show (((row :: rest).getD 0 []).set j v).length = row.length
      simp
    | succ k => rfl

theorem cellVal_setCell {grid : List (List Int)} {i j : Nat} {v : Int}
    (hi : i < numRows grid) (hj : j < (grid.getD i []).length) (a b : Nat) :
    cellVal (setCell grid i j v) a b =
      if a = i ∧ b = j then v else cellVal grid a b := by
  have hiL : i < grid.length := hi
  have hj2 : j < (grid[i]?.getD []).length := by
    simpa [List.getD_eq_getElem?_getD] using hj
  unfold cellVal setCell
  simp only [List.getD_eq_getElem?_getD]
  by_cases hai : a = i
  · subst hai
    rw [List.getElem?_set_self hiL]
    simp only [Option.getD_some]
    by_cases hbj : b = j
    · subst hbj
      rw [List.getElem?_set_self hj2]
      simp
    · rw [if_neg (fun hand => hbj hand.2), List.getElem?_set_ne (fun hjb => hbj hjb.symm)]
  · rw [if_neg (fun hand => hai hand.1), List.getElem?_set_ne (fun hia => hai hia.symm)]

theorem mono_obstacle (grid : List (List Int)) (i j : Nat) (v : Int)
    (hfree : ∀ c : Cell, c.1 < numRows grid → c.2 < numCols grid →
      cellVal grid c.1 c.2 = 0 ∨ cellVal grid c.1 c.2 = 1)
    (hrect : Rectangular grid)
    (hi : i < numRows grid) (hj : j < numCols grid)
    (hcell : cellVal grid i j = 0) (hv0 : v ≠ 0) (hv1 : v ≠ 1)
    (hne : min_total_distance (setCell grid i j v) ≠ -1) :
    min_total_distance grid ≤ min_total_distance (setCell grid i j v) := by
  have hj' : j < (grid.getD i []).length := by
    have hrow : grid.getD i [] ∈ grid := by
      rw [List.getD_eq_getElem?_getD, List.getElem?_eq_getElem hi, Option.getD_some]
      exact List.getElem_mem hi
    rw [hrect _ hrow]
    exact hj
  have hval := cellVal_setCell (v := v) hi hj'
  -- the house list is unchanged
  have hhouses : housesOf (setCell grid i j v) = housesOf grid := by
    unfold housesOf
    rw [numRows_setCell, numCols_setCell]
    apply List.filter_congr
    intro c _
    rw [hval c.1 c.2]
    by_cases hij : c.1 = i ∧ c.2 = j
    · rw [if_pos hij]
      have hc0 : cellVal grid c.1 c.2 = 0 := by rw [hij.1, hij.2]; exact hcell
      rw [hc0]
      simp [hv1]
    · rw [if_neg hij]
  -- the dispatcher conditions on both grids
  have hgE : grid.isEmpty = false := by
    refine List.isEmpty_eq_false.2 (fun hnil => ?_)
    rw [show numRows grid = grid.length from rfl, hnil] at hi
    exact Nat.not_lt_zero i hi
  have hheadE : (grid.headD []).isEmpty = false := by
    refine List.isEmpty_eq_false.2 (fun hnil => ?_)
    rw [show numCols grid = (grid.headD []).length from rfl, hnil] at hj
    exact Nat.not_lt_zero j hj
  have hgE' : (setCell grid i j v).isEmpty = false := by
    refine List.isEmpty_eq_false.2 (fun hnil => ?_)
    have := numRows_setCell grid i j v
    rw [show numRows (setCell grid i j v) = (setCell grid i j v).length from rfl, hnil] at this
    rw [← this] at hi
    exact Nat.not_lt_zero i hi
  have hheadE' : ((setCell grid i j v).headD []).isEmpty = false := by
    refine List.isEmpty_eq_false.2 (fun hnil => ?_)
    have := numCols_setCell grid i j v
    rw [show numCols (setCell grid i j v) =
      ((setCell grid i j v).headD []).length from rfl, hnil] at this
    rw [← this] at hj
    exact Nat.not_lt_zero j hj
  have hobs : has_obstacles grid = false := by
    have hnot : ¬ (has_obstacles grid = true) := by
      rw [has_obstacles_eq_true_iff]
      rintro ⟨c, h1, h2, h3, h4⟩
      rcases hfree c h1 h2 with h | h
      exacts [h3 h, h4 h]
    exact (Bool.not_eq_true (has_obstacles grid)) ▸ hnot
  have hobs' : has_obstacles (setCell grid i j v) = true := by
    rw [has_obstacles_eq_true_iff]
    refine ⟨(i, j), ?_, ?_, ?_, ?_⟩
    · rw [numRows_setCell]; exact hi
    · rw [numCols_setCell]; exact hj
    · rw [hval i j, if_pos ⟨rfl, rfl⟩]; exact hv0
    · rw [hval i j, if_pos ⟨rfl, rfl⟩]; exact hv1
  -- the house list is nonempty, else the modified grid would yield -1
  have hhne : housesOf grid ≠ [] := by
    intro hnil
    apply hne
    unfold min_total_distance
    split_ifs with hA hB
    · rfl
    · rfl
    · exact absurd (by rw [hhouses, hnil]; rfl) hB
    · exact absurd (by rw [hhouses, hnil]; rfl) hB
  -- both dispatchers resolve
  have hmin' : min_total_distance (setCell grid i j v) =
      _bfs_total_distance (setCell grid i j v) (housesOf grid) := by
    unfold min_total_distance
    rw [hgE', hheadE', hhouses, hobs']
    rw [if_neg (by simp), if_neg (by simp [hhne]), if_neg (by simp)]
  have hming : min_total_distance grid =
      _fast_total_distance grid (housesOf grid) := by
    unfold min_total_distance
    rw [hgE, hheadE, hobs]
    rw [if_neg (by simp), if_neg (by simp [hhne]), if_pos (by simp)]
  rw [hmin'] at hne ⊢
  rw [hming]
  -- extract the minimizing valid cell of the modified grid
  unfold _bfs_total_distance at hne ⊢
  have hnil : ((cells (numRows (setCell grid i j v)) (numCols (setCell grid i j v))).filter
      (fun c => isEmptyCell (setCell grid i j v) c &&
        (housesOf grid).all (fun h => (distTo (setCell grid i j v) h c).isSome))).map
      (fun c => ((housesOf grid).map
        (fun h => (distTo (setCell grid i j v) h c).getD 0)).sum) ≠ [] :=
    fun hl => hne (by rw [hl]; rfl)
  obtain ⟨t, ht, tmem, _⟩ := minOrNeg_of_ne_nil hnil
  rw [ht]
  obtain ⟨c, hcmem, hct⟩ := List.mem_map.1 tmem
  have hfilter := List.mem_filter.1 hcmem
  have hcb := mem_cells.1 hfilter.1
  rw [numRows_setCell] at hcb
  rw [numCols_setCell] at hcb
  have hpred := Bool.and_eq_true_iff.1 hfilter.2
  have hcempty' : cellVal (setCell grid i j v) c.1 c.2 = 0 := by
    have hE := hpred.1
    simpa [isEmptyCell] using hE
  have hcij : ¬ (c.1 = i ∧ c.2 = j) := by
    intro hij
    rw [hval c.1 c.2, if_pos hij] at hcempty'
    exact hv0 hcempty'
  have hcempty : EmptyAt grid c := by
    refine ⟨hcb.1, hcb.2, ?_⟩
    rw [hval c.1 c.2, if_neg hcij] at hcempty'
    exact hcempty'
  have hall := List.all_eq_true.1 hpred.2
  -- the fast result on the original grid is at most the total of cell c
  obtain ⟨c₀, _, heq, hle⟩ := (fast_spec grid (housesOf grid)).2 c hcempty
  rw [heq]
  -- per-house: the recorded BFS distance dominates the Manhattan distance
  have hpoint : ∀ h ∈ housesOf grid,
      manhattan h c ≤ (distTo (setCell grid i j v) h c).getD 0 := by
    intro h hmem
    obtain ⟨k, hk⟩ := Option.isSome_iff_exists.1 (hall h hmem)
    rw [hk]
    have hp := List.find?_some hk
    rw [decide_eq_true_eq] at hp
    simpa using reach_manhattan_le k c hp
  have hsum : ((housesOf grid).map (fun h => manhattan h c)).sum ≤ t := by
    rw [← hct]
    exact List.sum_le_sum hpoint
  have hchain : ((housesOf grid).map (fun h => manhattan h c₀)).sum ≤ t :=
    le_trans (hle c hcempty) hsum
  exact_mod_cast hchain

/-! ### Remaining auxiliary facts -/

theorem minOrNeg_zeros {l : List Nat} (hne : l ≠ []) (hz : ∀ x ∈ l, x = 0) :
    minOrNeg l = 0 := by
  obtain ⟨t, ht, tmem, _⟩ := minOrNeg_of_ne_nil hne
  rw [ht, hz t tmem]
  rfl

theorem has_obstacles_eq_false_iff {grid : List (List Int)} :
    has_obstacles grid = false ↔
      ∀ c : Cell, c.1 < numRows grid → c.2 < numCols grid →
        cellVal grid c.1 c.2 = 0 ∨ cellVal grid c.1 c.2 = 1 := by
  rw [← Bool.not_eq_true, has_obstacles_eq_true_iff]
  push_neg
  constructor
  · intro h c h1 h2
    by_cases h0 : cellVal grid c.1 c.2 = 0
    · exact Or.inl h0
    · exact Or.inr (h c h1 h2 h0)
  · intro h c h1 h2 hne0
    rcases h c h1 h2 with h0 | h1'
    · exact absurd h0 hne0
    · exact h1'

theorem bool_ne_true {b : Bool} (h : b = false) : ¬ b = true := by
  simp [h]

theorem dispatch_cond1 {grid : List (List Int)} :
    (grid.isEmpty || (grid.headD []).isEmpty) = true ↔
      numRows grid = 0 ∨ numCols grid = 0 := by
  simp [List.isEmpty_iff_length_eq_zero, numRows, numCols]

theorem helpers_zero_of_empty_cell (grid : List (List Int))
    (hE : ∃ c ∈ cells (numRows grid) (numCols grid), cellVal grid c.1 c.2 = 0) :
    _fast_total_distance grid [] = 0 ∧ _bfs_total_distance grid [] = 0 := by
  obtain ⟨c, hc, hcv⟩ := hE
  have hcE : EmptyAt grid c := ⟨(mem_cells.1 hc).1, (mem_cells.1 hc).2, hcv⟩
  constructor
  · unfold _fast_total_distance
    apply minOrNeg_zeros
    · simp only [ne_eq, List.map_eq_nil_iff]
      exact List.ne_nil_of_mem (mem_emptyList_iff.2 hcE)
    · intro x hx
      obtain ⟨c', _, hc'⟩ := List.mem_map.1 hx
      simpa using hc'.symm
  · unfold _bfs_total_distance
    apply minOrNeg_zeros
    · simp only [ne_eq, List.map_eq_nil_iff]
      refine List.ne_nil_of_mem (List.mem_filter.2 ⟨hc, ?_⟩)
      simp [isEmptyCell, hcv]
    · intro x hx
      obtain ⟨c', _, hc'⟩ := List.mem_map.1 hx
      simpa using hc'.symm

/-! ### The claims -/

/-- C1: for every rectangular grid and every non-empty list of house
coordinates, `_bfs_total_distance` returns the minimum, over all cells of
value 0 whose reachability count equals the total number of houses (cells
reachable from every house by 4-directional unit steps through
non-obstacle cells), of the sum over all houses of the shortest-path edge
count from that house to the cell, and -1 if no empty cell is reachable
from all houses. -/
theorem bfs_total_distance_correct (grid : List (List Int)) (houses : List Cell)
    (_hrect : Rectangular grid) (_hne : houses ≠ [])
    (hh : ∀ h ∈ houses, h.1 < numRows grid ∧ h.2 < numCols grid) :
    _bfs_total_distance grid houses = specResult grid houses :=
  bfs_eq_spec grid houses hh

/-- Witness for C1 at a concrete grid with an obstacle. -/
theorem bfs_total_distance_correct_witness :
    (Rectangular [[1, 2], [0, 0]] ∧ ([(0, 0)] : List Cell) ≠ [] ∧
      (∀ h ∈ ([(0, 0)] : List Cell),
        h.1 < numRows [[1, 2], [0, 0]] ∧ h.2 < numCols [[1, 2], [0, 0]])) ∧
    _bfs_total_distance [[1, 2], [0, 0]] [(0, 0)] = specResult [[1, 2], [0, 0]] [(0, 0)] :=
  ⟨⟨by decide, by decide, by decide⟩,
    bfs_total_distance_correct [[1, 2], [0, 0]] [(0, 0)] (by decide) (by decide) (by decide)⟩

/-- C2: on every grid containing only the values 0 and 1 (obstacle-free)
and for every list of (in-bounds) house coordinates,
`_fast_total_distance` and `_bfs_total_distance` return exactly the same
result. -/
theorem fast_eq_bfs_obstacle_free (grid : List (List Int)) (houses : List Cell)
    (hfree : ∀ c ∈ cells (numRows grid) (numCols grid),
      cellVal grid c.1 c.2 = 0 ∨ cellVal grid c.1 c.2 = 1)
    (hh : ∀ h ∈ houses, h.1 < numRows grid ∧ h.2 < numCols grid) :
    _fast_total_distance grid houses = _bfs_total_distance grid houses :=
  fast_eq_bfs_free grid houses (fun c h1 h2 => hfree c (mem_cells.2 ⟨h1, h2⟩)) hh

/-- Witness for C2 at a concrete obstacle-free grid. -/
theorem fast_eq_bfs_obstacle_free_witness :
    ((∀ c ∈ cells (numRows [[1, 0]]) (numCols [[1, 0]]),
        cellVal [[1, 0]] c.1 c.2 = 0 ∨ cellVal [[1, 0]] c.1 c.2 = 1) ∧
      (∀ h ∈ ([(0, 0)] : List Cell),
        h.1 < numRows [[1, 0]] ∧ h.2 < numCols [[1, 0]])) ∧
    _fast_total_distance [[1, 0]] [(0, 0)] = _bfs_total_distance [[1, 0]] [(0, 0)] :=
  ⟨⟨by decide, by decide⟩,
    fast_eq_bfs_obstacle_free [[1, 0]] [(0, 0)] (by decide) (by decide)⟩

/-- C3: for every rectangular grid and every list of house coordinates,
`_fast_total_distance` returns the minimum over all empty cells of the
sum over all houses of the Manhattan distance, and -1 when the grid
contains no empty cell. -/
theorem fast_total_distance_correct (grid : List (List Int)) (houses : List Cell)
    (_hrect : Rectangular grid) :
    ((¬ ∃ c, EmptyAt grid c) → _fast_total_distance grid houses = -1) ∧
    (∀ c, EmptyAt grid c →
      ∃ c₀, EmptyAt grid c₀ ∧
        _fast_total_distance grid houses =
          ((houses.map (fun h => manhattan h c₀)).sum : Int) ∧
        ∀ c', EmptyAt grid c' →
          (houses.map (fun h => manhattan h c₀)).sum ≤
            (houses.map (fun h => manhattan h c' )).sum) :=
  fast_spec grid houses

/-- Witness for C3 at a concrete grid. -/
theorem fast_total_distance_correct_witness :
    Rectangular [[1, 0]] ∧
    (((¬ ∃ c, EmptyAt [[1, 0]] c) → _fast_total_distance [[1, 0]] [(0, 0)] = -1) ∧
    (∀ c, EmptyAt [[1, 0]] c →
      ∃ c₀, EmptyAt [[1, 0]] c₀ ∧
        _fast_total_distance [[1, 0]] [(0, 0)] =
          ((([(0, 0)] : List Cell).map (fun h => manhattan h c₀)).sum : Int) ∧
        ∀ c', EmptyAt [[1, 0]] c' →
          (([(0, 0)] : List Cell).map (fun h => manhattan h c₀)).sum ≤
            (([(0, 0)] : List Cell).map (fun h => manhattan h c' )).sum)) :=
  ⟨by decide, fast_total_distance_correct [[1, 0]] [(0, 0)] (by decide)⟩

/-- C4: `min_total_distance` returns -1 when the grid has zero rows or a
zero-length first row; otherwise -1 when the grid contains no cell of
value 1; otherwise it delegates to `_fast_total_distance` when every cell
is 0 or 1 and to `_bfs_total_distance` when some cell is neither, in both
cases on the row-major house list `housesOf`. -/
theorem min_total_distance_dispatch (grid : List (List Int)) :
    ((numRows grid = 0 ∨ numCols grid = 0) → min_total_distance grid = -1) ∧
    (numRows grid ≠ 0 → numCols grid ≠ 0 →
      (((∀ c : Cell, c.1 < numRows grid → c.2 < numCols grid →
          cellVal grid c.1 c.2 ≠ 1) → min_total_distance grid = -1) ∧
        ((∃ c : Cell, c.1 < numRows grid ∧ c.2 < numCols grid ∧ cellVal grid c.1 c.2 = 1) →
          (((∀ c : Cell, c.1 < numRows grid → c.2 < numCols grid →
              cellVal grid c.1 c.2 = 0 ∨ cellVal grid c.1 c.2 = 1) →
            min_total_distance grid = _fast_total_distance grid (housesOf grid)) ∧
          ((∃ c : Cell, c.1 < numRows grid ∧ c.2 < numCols grid ∧
              cellVal grid c.1 c.2 ≠ 0 ∧ cellVal grid c.1 c.2 ≠ 1) →
            min_total_distance grid = _bfs_total_distance grid (housesOf grid)))))) ∧
    (∀ c : Cell, c ∈ housesOf grid ↔
      c.1 < numRows grid ∧ c.2 < numCols grid ∧ cellVal grid c.1 c.2 = 1) := by
  refine ⟨?_, ?_, fun c => mem_housesOf_iff⟩
  · intro h0
    unfold min_total_distance
    rw [if_pos (dispatch_cond1.2 h0)]
  · intro hr hc
    have hcond1 : (grid.isEmpty || (grid.headD []).isEmpty) = false := by
      rw [← Bool.not_eq_true]
      rw [show ((¬(grid.isEmpty || (grid.headD []).isEmpty) = true)) =
        ¬(numRows grid = 0 ∨ numCols grid = 0) from propext (not_congr dispatch_cond1)]
      tauto
    refine ⟨?_, ?_⟩
    · intro hnoh
      unfold min_total_distance
      rw [if_neg (bool_ne_true hcond1), if_pos (List.isEmpty_eq_true.2 (housesOf_eq_nil_iff.2 hnoh))]
    · intro hex
      have hns : (housesOf grid).isEmpty = false := by
        rw [List.isEmpty_eq_false]
        intro hnil
        obtain ⟨c, h1, h2, h3⟩ := hex
        exact housesOf_eq_nil_iff.1 hnil c h1 h2 h3
      refine ⟨?_, ?_⟩
      · intro hfree
        have hobs : has_obstacles grid = false := has_obstacles_eq_false_iff.2 hfree
        unfold min_total_distance
        rw [if_neg (bool_ne_true hcond1), if_neg (bool_ne_true hns), if_pos (by simp [hobs])]
      · rintro ⟨c, h1, h2, h3, h4⟩
        have hobs : has_obstacles grid = true := has_obstacles_eq_true_iff.2 ⟨c, h1, h2, h3, h4⟩
        unfold min_total_distance
        rw [if_neg (bool_ne_true hcond1), if_neg (bool_ne_true hns), if_neg (by simp [hobs])]

/-- Witness for C4: the empty grid resolves to the sentinel through the
dispatch theorem. -/
theorem min_total_distance_dispatch_witness : min_total_distance [] = -1 :=
  (min_total_distance_dispatch []).1 (Or.inl rfl)

/-- C5: on the grid `[[1,0,2,0,1],[0,0,0,0,0],[0,0,1,0,0]]` (houses at
(0,0), (0,4), (2,2); obstacle at (0,2)) the solver returns exactly 7. -/
theorem solve_example_returns_seven :
    min_total_distance [[1, 0, 2, 0, 1], [0, 0, 0, 0, 0], [0, 0, 1, 0, 0]] = 7 := by
  decide

/-- C6 counterexample: turning the empty cell (0,1) of the obstacle-free
grid `[[1,0]]` into an obstacle drops the result from 1 to the sentinel
-1, so the returned value decreases: the claimed monotonicity fails as
stated when the obstacle removes the last valid meeting cell. -/
theorem obstacle_monotonicity_cex :
    cellVal [[1, 0]] 0 1 = 0 ∧
    setCell [[1, 0]] 0 1 2 = [[1, 2]] ∧
    (∀ c ∈ cells (numRows [[1, 0]]) (numCols [[1, 0]]),
      cellVal [[1, 0]] c.1 c.2 = 0 ∨ cellVal [[1, 0]] c.1 c.2 = 1) ∧
    min_total_distance [[1, 0]] = 1 ∧
    min_total_distance (setCell [[1, 0]] 0 1 2) = -1 ∧
    ¬ (min_total_distance [[1, 0]] ≤ min_total_distance (setCell [[1, 0]] 0 1 2)) := by
  decide

/-- C6 amended: adding an obstacle to an obstacle-free grid can only
increase or leave unchanged the minimum total distance, provided the
modified grid still admits a valid meeting cell (result not -1); when the
obstacle removes the last valid meeting cell the result becomes the
sentinel -1, which is numerically smaller. -/
theorem obstacle_monotonicity_amended (grid : List (List Int)) (i j : Nat) (v : Int)
    (hfree : ∀ c ∈ cells (numRows grid) (numCols grid),
      cellVal grid c.1 c.2 = 0 ∨ cellVal grid c.1 c.2 = 1)
    (hrect : Rectangular grid) (hi : i < numRows grid) (hj : j < numCols grid)
    (hcell : cellVal grid i j = 0) (hv0 : v ≠ 0) (hv1 : v ≠ 1)
    (hne : min_total_distance (setCell grid i j v) ≠ -1) :
    min_total_distance grid ≤ min_total_distance (setCell grid i j v) :=
  mono_obstacle grid i j v (fun c h1 h2 => hfree c (mem_cells.2 ⟨h1, h2⟩))
    hrect hi hj hcell hv0 hv1 hne

/-- Witness for the amended C6 at a concrete grid where the obstacle
leaves a valid meeting cell. -/
theorem obstacle_monotonicity_amended_witness :
    ((∀ c ∈ cells (numRows [[1, 0], [0, 0]]) (numCols [[1, 0], [0, 0]]),
        cellVal [[1, 0], [0, 0]] c.1 c.2 = 0 ∨ cellVal [[1, 0], [0, 0]] c.1 c.2 = 1) ∧
      Rectangular [[1, 0], [0, 0]] ∧ 0 < numRows [[1, 0], [0, 0]] ∧
      1 < numCols [[1, 0], [0, 0]] ∧ cellVal [[1, 0], [0, 0]] 0 1 = 0 ∧
      (2 : Int) ≠ 0 ∧ (2 : Int) ≠ 1 ∧
      min_total_distance (setCell [[1, 0], [0, 0]] 0 1 2) ≠ -1) ∧
    min_total_distance [[1, 0], [0, 0]] ≤ min_total_distance (setCell [[1, 0], [0, 0]] 0 1 2) :=
  ⟨⟨by decide, by decide, by decide, by decide, by decide, by decide, by decide, by decide⟩,
    obstacle_monotonicity_amended [[1, 0], [0, 0]] 0 1 2 (by decide) (by decide) (by decide)
      (by decide) (by decide) (by decide) (by decide) (by decide)⟩

/-- C7: `min_total_distance` returns the same result when every cell
value other than 0 and 1 is replaced by the canonical obstacle value 2:
the classification of values is a closed three-way partition. -/
theorem closed_classification (grid : List (List Int)) :
    min_total_distance (normalizeGrid grid) = min_total_distance grid :=
  min_total_distance_normalize grid

/-- C9: whenever `min_total_distance` does not return the sentinel -1,
the result is at least the number of houses and hence strictly positive;
in particular the sentinel never coincides with a legitimately computed
distance. -/
theorem result_bounded_below (grid : List (List Int))
    (hne : min_total_distance grid ≠ -1) :
    ((housesOf grid).length : Int) ≤ min_total_distance grid ∧
      0 < min_total_distance grid :=
  result_lower_bound grid hne

/-- Witness for C9 at a concrete grid. -/
theorem result_bounded_below_witness :
    min_total_distance [[1, 0]] ≠ -1 ∧
      (((housesOf [[1, 0]]).length : Int) ≤ min_total_distance [[1, 0]] ∧
        0 < min_total_distance [[1, 0]]) :=
  ⟨by decide, result_bounded_below [[1, 0]] (by decide)⟩

/-- C10: called directly with an empty house list, both sub-operations
return 0 (not the sentinel) whenever the grid contains an empty cell:
neither validates the non-empty-house precondition. -/
theorem helpers_no_house_validation (grid : List (List Int))
    (hE : ∃ c ∈ cells (numRows grid) (numCols grid), cellVal grid c.1 c.2 = 0) :
    _fast_total_distance grid [] = 0 ∧ _bfs_total_distance grid [] = 0 :=
  helpers_zero_of_empty_cell grid hE

/-- Witness for C10 at a concrete grid. -/
theorem helpers_no_house_validation_witness :
    (∃ c ∈ cells (numRows [[1, 0]]) (numCols [[1, 0]]), cellVal [[1, 0]] c.1 c.2 = 0) ∧
      (_fast_total_distance [[1, 0]] [] = 0 ∧ _bfs_total_distance [[1, 0]] [] = 0) :=
  ⟨by decide, helpers_no_house_validation [[1, 0]] (by decide)⟩

end OMP
